import Mathlib

/-!
Shallow embedding of the shuffle.io poker backend
(`src/backend/src/roomLogic.ts` and `src/backend/src/machines/gameMachine.ts`).

JavaScript numbers are modelled as `Int` (chip counts can go negative because
the code performs unchecked subtraction), record objects keyed by player id as
association lists with first-occurrence lookup, and `Array.prototype.pop` as
removal from the *end* of a list.  Code paths that throw at runtime (the
non-null assertions `!` in `evaluateHand` and `assertEvent` in the XState
actions) are modelled with `Except String`.
-/

namespace Shufle

/-- The four suits (`Suit` enum in `shared/types`). -/
inductive Suit where
  | heart | diamond | club | spade
deriving DecidableEq, Repr, Inhabited

/-- The thirteen ranks (`Rank` enum in `shared/types`). -/
inductive Rank where
  | two | three | four | five | six | seven | eight | nine | ten
  | jack | queen | king | ace
deriving DecidableEq, Repr, Inhabited

/-- `getRankValue` from `roomLogic.ts`: numeric value of a rank, Ace = 14. -/
def getRankValue : Rank → Int
  | .two => 2 | .three => 3 | .four => 4 | .five => 5 | .six => 6
  | .seven => 7 | .eight => 8 | .nine => 9 | .ten => 10
  | .jack => 11 | .queen => 12 | .king => 13 | .ace => 14

/-- A playing card (`Card` in `shared/types`). -/
structure Card where
  suit : Suit
  rank : Rank
deriving DecidableEq, Repr, Inhabited

/-- `generateDeck` from `roomLogic.ts`: all 52 cards, suits in the order
heart, diamond, club, spade, ranks ascending 2..A. -/
def generateDeck : List Card :=
  [Suit.heart, Suit.diamond, Suit.club, Suit.spade].flatMap fun s =>
    [Rank.two, Rank.three, Rank.four, Rank.five, Rank.six, Rank.seven,
     Rank.eight, Rank.nine, Rank.ten, Rank.jack, Rank.queen, Rank.king,
     Rank.ace].map fun r => { suit := s, rank := r }

/-- The intermediate card representation used inside `evaluateHand`:
`{ val: getRankValue(c.rank), suit: c.suit }`. -/
structure EvalCard where
  val : Int
  suit : Suit
deriving DecidableEq, Repr, Inhabited

/-- Insert into a descending-by-`val` list, before the first element that is
not strictly greater (so the stable order of equal values is kept). -/
def insertDesc (c : EvalCard) : List EvalCard → List EvalCard
  | [] => [c]
  | x :: xs => if x.val > c.val then x :: insertDesc c xs else c :: x :: xs

/-- Stable descending sort by `val`, modelling
`cards.sort((a, b) => b.val - a.val)`. -/
def sortDesc : List EvalCard → List EvalCard
  | [] => []
  | c :: rest => insertDesc c (sortDesc rest)

/-- Keep-first deduplication with an accumulator of already-seen values. -/
def dedupGo (seen : List Int) : List Int → List Int
  | [] => []
  | v :: rest =>
      if v ∈ seen then dedupGo seen rest
      else v :: dedupGo (v :: seen) rest

/-- `Array.from(new Set(xs))`: keep the first occurrence of each value
(a JS `Set` iterates in insertion order). -/
def dedupKeepFirst (l : List Int) : List Int := dedupGo [] l

/-- The scan of the `suitCounts` loop in `evaluateHand` that determines
`flushSuit`: walking the sorted cards, bump the per-suit count and record the
suit each time its count reaches 5 or more. -/
def findFlushSuit : List EvalCard → (Suit → Nat) → Option Suit → Option Suit
  | [], _, fs => fs
  | c :: rest, cnt, fs =>
      let n := cnt c.suit + 1
      findFlushSuit rest (fun s => if s = c.suit then n else cnt s)
        (if 5 ≤ n then some c.suit else fs)

/-- The window scan inside `getStraight`: for `i` from 0 while at least five
values remain, return `slice(i, i+5)` as soon as
`uniqueVals[i] - uniqueVals[i+4] == 4`. -/
def scanStraight : List Int → Option (List Int)
  | a :: b :: c :: d :: e :: rest =>
      if a - e = 4 then some [a, b, c, d, e]
      else scanStraight (b :: c :: d :: e :: rest)
  | _ => none

/-- `getStraight` from `evaluateHand`: the window scan on the
descending unique values, then the wheel check {A,5,4,3,2} → `[5,4,3,2,1]`. -/
def getStraight (uniqueVals : List Int) : Option (List Int) :=
  if uniqueVals.length < 5 then none
  else
    match scanStraight uniqueVals with
    | some w => some w
    | none =>
        if 14 ∈ uniqueVals ∧ 5 ∈ uniqueVals ∧ 4 ∈ uniqueVals ∧
           3 ∈ uniqueVals ∧ 2 ∈ uniqueVals then
          some [5, 4, 3, 2, 1]
        else none

/-- `HandResult` from `roomLogic.ts`. -/
structure HandResult where
  handName : String
  score : Int
  tieBreakers : List Int
deriving DecidableEq, Repr, Inhabited

/-- The `HAND_SCORES` table. -/
def HIGH_CARD_SCORE : Int := 100000
def ONE_PAIR_SCORE : Int := 200000
def TWO_PAIR_SCORE : Int := 300000
def THREE_OF_A_KIND_SCORE : Int := 400000
def STRAIGHT_SCORE : Int := 500000
def FLUSH_SCORE : Int := 600000
def FULL_HOUSE_SCORE : Int := 700000
def FOUR_OF_A_KIND_SCORE : Int := 800000
def STRAIGHT_FLUSH_SCORE : Int := 900000
def ROYAL_FLUSH_SCORE : Int := 1000000

/-- Number of cards in `cards` whose `val` equals `v`
(the `counts[c.val]` record in `evaluateHand`). -/
def countVal (cards : List EvalCard) (v : Int) : Nat :=
  cards.countP (fun c => c.val = v)

/-- `valsByCount[k]` in `evaluateHand`: the distinct values occurring exactly
`k` times, in descending order (the code collects them from `Object.entries`
and then sorts descending; filtering the descending unique-value list gives
the same list). -/
def valsByCount (cards : List EvalCard) (uniqueVals : List Int) (k : Nat) :
    List Int :=
  uniqueVals.filter (fun v => countVal cards v = k)

/-- `evaluateHand` from `roomLogic.ts`.  The two non-null assertions on
`cards.find(...)` (the FOUR_OF_A_KIND kicker and the TWO_PAIR kicker) are the
only places the function can throw on a deal; they are modelled by
`Except.error`. -/
def evaluateHand (holeCards communityCards : List Card) :
    Except String HandResult :=
  let allCards := holeCards ++ communityCards
  let cards := sortDesc (allCards.map fun c =>
    { val := getRankValue c.rank, suit := c.suit })
  let flushSuit := findFlushSuit cards (fun _ => 0) none
  let uniqueVals := dedupKeepFirst (cards.map (·.val))
  -- Straight flush / royal flush, on the flush-suit subset only
  let sfResult : Option HandResult :=
    match flushSuit with
    | none => none
    | some fs =>
        let flushCards := cards.filter (fun c => c.suit = fs)
        let flushVals := dedupKeepFirst (flushCards.map (·.val))
        match getStraight flushVals with
        | none => none
        | some sf =>
            if sf.headD 0 = 14 then
              some { handName := "ROYAL_FLUSH", score := ROYAL_FLUSH_SCORE,
                     tieBreakers := [] }
            else
              some { handName := "STRAIGHT_FLUSH",
                     score := STRAIGHT_FLUSH_SCORE + sf.headD 0,
                     tieBreakers := [] }
  match sfResult with
  | some r => .ok r
  | none =>
  -- Four of a kind
  match valsByCount cards uniqueVals 4 with
  | fourVal :: _ =>
      match cards.find? (fun c => c.val ≠ fourVal) with
      | some k =>
          .ok { handName := "FOUR_OF_A_KIND",
                score := FOUR_OF_A_KIND_SCORE + fourVal,
                tieBreakers := [fourVal, k.val] }
      | none => .error "FOUR_OF_A_KIND kicker: no card found"
  | [] =>
  -- Full house
  let threes := valsByCount cards uniqueVals 3
  let twos := valsByCount cards uniqueVals 2
  let fullHouse : Option HandResult :=
    match threes with
    | threeVal :: moreThrees =>
        let twoVal : Int :=
          match moreThrees with
          | t :: _ => t
          | [] => match twos with
                  | t :: _ => t
                  | [] => -1
        if twoVal ≠ -1 then
          some { handName := "FULL_HOUSE", score := FULL_HOUSE_SCORE + threeVal,
                 tieBreakers := [threeVal, twoVal] }
        else none
    | [] => none
  match fullHouse with
  | some r => .ok r
  | none =>
  -- Flush
  match flushSuit with
  | some fs =>
      let flushVals := ((cards.filter (fun c => c.suit = fs)).take 5).map (·.val)
      .ok { handName := "FLUSH", score := FLUSH_SCORE + flushVals.headD 0,
            tieBreakers := flushVals }
  | none =>
  -- Straight
  match getStraight uniqueVals with
  | some st =>
      .ok { handName := "STRAIGHT", score := STRAIGHT_SCORE + st.headD 0,
            tieBreakers := [st.headD 0] }
  | none =>
  -- Three of a kind
  match threes with
  | threeVal :: _ =>
      let kickers := ((cards.filter (fun c => c.val ≠ threeVal)).take 2).map (·.val)
      .ok { handName := "THREE_OF_A_KIND",
            score := THREE_OF_A_KIND_SCORE + threeVal,
            tieBreakers := threeVal :: kickers }
  | [] =>
  -- Two pair
  match twos with
  | highPair :: lowPair :: _ =>
      match cards.find? (fun c => c.val ≠ highPair ∧ c.val ≠ lowPair) with
      | some k =>
          .ok { handName := "TWO_PAIR", score := TWO_PAIR_SCORE + highPair,
                tieBreakers := [highPair, lowPair, k.val] }
      | none => .error "TWO_PAIR kicker: no card found"
  | [highPair] =>
      let kickers := ((cards.filter (fun c => c.val ≠ highPair)).take 3).map (·.val)
      .ok { handName := "ONE_PAIR", score := ONE_PAIR_SCORE + highPair,
            tieBreakers := highPair :: kickers }
  | [] =>
      let top5 := (cards.take 5).map (·.val)
      .ok { handName := "HIGH_CARD", score := HIGH_CARD_SCORE + top5.headD 0,
            tieBreakers := top5 }

/-- Tail of the `compareHands` loop once the second list is exhausted:
`valB` reads as 0, so return the first nonzero entry. -/
def lexZeroRight : List Int → Int
  | [] => 0
  | x :: xs => if x - 0 ≠ 0 then x - 0 else lexZeroRight xs

/-- Tail of the `compareHands` loop once the first list is exhausted:
`valA` reads as 0, so return the negation of the first nonzero entry. -/
def lexZeroLeft : List Int → Int
  | [] => 0
  | y :: ys => if 0 - y ≠ 0 then 0 - y else lexZeroLeft ys

/-- The tie-breaker loop of `compareHands`: walk both lists in lockstep,
missing entries read as 0 (`handX.tieBreakers[i] || 0`), returning the first
nonzero difference. -/
def lexCmp0 : List Int → List Int → Int
  | [], ys => lexZeroLeft ys
  | x :: xs, [] => lexZeroRight (x :: xs)
  | x :: xs, y :: ys => if x - y ≠ 0 then x - y else lexCmp0 xs ys

/-- `compareHands` from `roomLogic.ts`: score difference, else the first
nonzero tie-breaker difference (missing tie-breakers read as 0). -/
def compareHands (handA handB : HandResult) : Int :=
  if handA.score ≠ handB.score then handA.score - handB.score
  else lexCmp0 handA.tieBreakers handB.tieBreakers

/-- A player (`Player` in `shared/types`); `tiles` is an `Int` because the
machine subtracts commit amounts without validating them. -/
structure Player where
  id : String
  name : String
  tiles : Int
  holeCards : List Card
  isFolded : Bool
  isSpectator : Bool
deriving DecidableEq, Repr, Inhabited

/-- The machine's context (`GameContext = RoomState & {deck, dealerIndex,
roundBets, playersWhoActed}` in `gameMachine.ts`).  `roundBets` is the
`Record<string, number>`, modelled as an association list where the first
occurrence of a key wins. -/
structure GameContext where
  roomId : String
  players : List Player
  communityCards : List Card
  pot : Int
  currentCommitment : Int
  phase : String
  activePlayerIndex : Nat
  history : List String
  deck : List Card
  dealerIndex : Nat
  roundBets : List (String × Int)
  playersWhoActed : List String
deriving DecidableEq, Repr, Inhabited

/-- `ctx.roundBets[pid] || 0`. -/
def getBet (bets : List (String × Int)) (pid : String) : Int :=
  match bets.lookup pid with
  | some v => v
  | none => 0

/-- `{ ...bets, [pid]: v }`: the new binding shadows any old one. -/
def setBet (bets : List (String × Int)) (pid : String) (v : Int) :
    List (String × Int) :=
  (pid, v) :: bets

/-- Total chips on the table: every player's stack plus the pot. -/
def chipSum (ctx : GameContext) : Int :=
  (ctx.players.map Player.tiles).sum + ctx.pot

/-- The machine's events (`GameEvent` in `gameMachine.ts`), plus the delayed
event XState enqueues when an `after: { 30000: ... }` timer fires — that event
is *not* one of the seven user-facing event types. -/
inductive GameEvent where
  | joinRoom (player : Player)
  | startGame (playerId : String)
  | commit (playerId : String) (amount : Int)
  | fold (playerId : String)
  | check (playerId : String)
  | passAction (playerId : Option String)
  | disconnect (playerId : String)
  | afterTimeout
deriving DecidableEq, Repr

/-- `handleCheck`: `assertEvent(event, 'CHECK')` (modelled as `Except.error`
on any other event), then append the actor to `playersWhoActed`.  It performs
no legality check and moves no chips. -/
def handleCheck (ctx : GameContext) (e : GameEvent) : Except String GameContext :=
  match e with
  | .check playerId =>
      .ok { ctx with
              playersWhoActed := ctx.playersWhoActed ++ [playerId],
              history := ctx.history ++ ["Player checked."] }
  | _ => .error "assertEvent: expected CHECK"

/-- `handleCommit`: find the player (missing id → context unchanged), deduct
`amount` from their tiles unconditionally (the source only has a comment
`// Validation: event.amount should not exceed player.tiles`), add it to the
pot, and update `currentCommitment`/`roundBets`/`playersWhoActed`; a raise
(`newTotal > currentCommitment`) resets `playersWhoActed` to the raiser. -/
def handleCommit (ctx : GameContext) (e : GameEvent) : Except String GameContext :=
  match e with
  | .commit playerId amount =>
      match ctx.players.find? (fun p => p.id = playerId) with
      | none => .ok ctx
      | some player =>
          let existingBet := getBet ctx.roundBets playerId
          let totalBet := existingBet + amount
          let players := ctx.players.map fun p =>
            if p.id = playerId then { p with tiles := p.tiles - amount } else p
          let newPot := ctx.pot + amount
          let isRaise := totalBet > ctx.currentCommitment
          let playersWhoActed :=
            if isRaise then [playerId] else ctx.playersWhoActed ++ [playerId]
          .ok { ctx with
                  players := players,
                  pot := newPot,
                  currentCommitment := max ctx.currentCommitment totalBet,
                  roundBets := setBet ctx.roundBets playerId totalBet,
                  playersWhoActed := playersWhoActed,
                  history := ctx.history ++
                    [player.name ++ " committed " ++ toString amount ++
                      ". Total in Pot: " ++ toString newPot ++ "."] }
  | _ => .error "assertEvent: expected COMMIT"

/-- `handleFold`: `assertEvent(event, 'FOLD')`, then mark the player folded.
Note it does *not* append to `playersWhoActed`. -/
def handleFold (ctx : GameContext) (e : GameEvent) : Except String GameContext :=
  match e with
  | .fold playerId =>
      .ok { ctx with
              players := ctx.players.map fun p =>
                if p.id = playerId then { p with isFolded := true } else p,
              history := ctx.history ++ ["Player folded."] }
  | _ => .error "assertEvent: expected FOLD"

/-- `isBettingComplete` from `gameMachine.ts`. -/
def isBettingComplete (ctx : GameContext) : Bool :=
  let activePlayers := ctx.players.filter fun p =>
    ¬p.isFolded ∧ ¬p.isSpectator ∧ p.tiles > 0
  let nonFolded := ctx.players.filter fun p => ¬p.isFolded ∧ ¬p.isSpectator
  if nonFolded.length ≤ 1 then true
  else
    let allMatched := activePlayers.all fun p =>
      getBet ctx.roundBets p.id ≥ ctx.currentCommitment
    let allActed := activePlayers.all fun p =>
      ctx.playersWhoActed.contains p.id
    allMatched && allActed

/-- The guards of the machine. -/
def canStartGame (ctx : GameContext) : Bool :=
  2 ≤ (ctx.players.filter (fun p => ¬p.isSpectator)).length

/-- `isTurn`: the event's `playerId` equals the id of
`players[activePlayerIndex]` (optional chaining: out-of-range index → false). -/
def isTurn (ctx : GameContext) (pid : String) : Bool :=
  match ctx.players.get? ctx.activePlayerIndex with
  | some p => p.id = pid
  | none => false

def onlyOnePlayerLeft (ctx : GameContext) : Bool :=
  (ctx.players.filter fun p => ¬p.isFolded ∧ ¬p.isSpectator).length ≤ 1

/-- The loop body of `getNextPlayerIndex` inside `postBlinds`: starting from
`(start+1) % N`, advance while the current seat is a spectator or broke,
breaking (and returning `start`) if the scan wraps all the way around. -/
def nextIdxGo (players : List Player) (start : Nat) : Nat → Nat → Nat
  | i, 0 => i
  | i, fuel + 1 =>
      let p := players.getD i default
      if p.isSpectator ∨ p.tiles = 0 then
        let i2 := (i + 1) % players.length
        if i2 = start then i2 else nextIdxGo players start i2 fuel
      else i

/-- `getNextPlayerIndex` from `postBlinds`. -/
def getNextPlayerIndex (players : List Player) (start : Nat) : Nat :=
  nextIdxGo players start ((start + 1) % players.length) players.length

/-- `postBlinds`: pick SB and BB seats after the dealer, deduct
`min(tiles, 10)` and `min(tiles, 20)`, build a fresh `roundBets`, set the pot
and `currentCommitment := 20`, put the player after the BB on turn, and clear
`playersWhoActed`. -/
def postBlinds (ctx : GameContext) : GameContext :=
  let activePlayers := ctx.players.filter fun p => ¬p.isSpectator
  if activePlayers.length < 2 then ctx
  else
    let sbIndex := getNextPlayerIndex ctx.players ctx.dealerIndex
    let bbIndex := getNextPlayerIndex ctx.players sbIndex
    let sbPlayer := ctx.players.getD sbIndex default
    let bbPlayer := ctx.players.getD bbIndex default
    let sbAmt := min sbPlayer.tiles 10
    let bbAmt := min bbPlayer.tiles 20
    let roundBets := setBet (setBet [] sbPlayer.id sbAmt) bbPlayer.id bbAmt
    let players :=
      (ctx.players.set sbIndex { sbPlayer with tiles := sbPlayer.tiles - sbAmt
        }).set bbIndex { bbPlayer with tiles := bbPlayer.tiles - bbAmt }
    { ctx with
        players := players,
        pot := sbAmt + bbAmt,
        currentCommitment := 20,
        roundBets := roundBets,
        activePlayerIndex := getNextPlayerIndex ctx.players bbIndex,
        history := ctx.history ++ ["Blinds posted."],
        playersWhoActed := [] }

/-- `shuffleAndDeal`, with the shuffled deck supplied as an argument (the
source calls `shuffleDeck(generateDeck())`, whose output is random; the model
takes the permutation as input).  `deck.pop()` removes from the *end* of the
array, so each funded non-spectator receives the last two remaining cards.
`dealHoleCards` is the dealing loop, `shuffleAndDealWith` the full action. -/
def dealHoleCards : List Card → List Player → List Card × List Player
  | d, [] => (d, [])
  | d, p :: rest =>
      if p.tiles > 0 ∧ ¬p.isSpectator then
        let c1 := d.getLastD default
        let d1 := d.dropLast
        let c2 := d1.getLastD default
        let d2 := d1.dropLast
        let (dRest, psRest) := dealHoleCards d2 rest
        (dRest, { p with holeCards := [c1, c2], isFolded := false } :: psRest)
      else
        let (dRest, psRest) := dealHoleCards d rest
        (dRest, { p with holeCards := [], isFolded := false } :: psRest)

def shuffleAndDealWith (deck : List Card) (ctx : GameContext) : GameContext :=
  let deal := dealHoleCards deck ctx.players
  { ctx with
      deck := deal.1,
      players := deal.2,
      communityCards := [],
      pot := 0,
      currentCommitment := 0,
      roundBets := [],
      playersWhoActed := [],
      phase := "DEALING",
      history := ctx.history ++ ["Starting new hand..."] }

/-- `prepareBettingRound`: reset the street state; the new
`activePlayerIndex` is `(dealerIndex + 1) % N` without skipping folded or
broke seats (the source comments `// Needs proper next-player logic`). -/
def prepareBettingRound (ctx : GameContext) : GameContext :=
  { ctx with
      currentCommitment := 0,
      roundBets := [],
      playersWhoActed := [],
      activePlayerIndex := (ctx.dealerIndex + 1) % ctx.players.length }

/-- `deck.pop()!`: take the last card (arbitrary default if empty, which the
source would crash on). -/
def popCard (d : List Card) : Card × List Card :=
  (d.getLastD default, d.dropLast)

/-- `dealFlop`: burn one card, deal three community cards, set phase. -/
def dealFlop (ctx : GameContext) : GameContext :=
  let d0 := ctx.deck.dropLast
  let (c1, d1) := popCard d0
  let (c2, d2) := popCard d1
  let (c3, d3) := popCard d2
  { ctx with deck := d3, communityCards := [c1, c2, c3],
             phase := "COMMITMENT" }

/-- `dealTurn`: burn one, deal one. -/
def dealTurn (ctx : GameContext) : GameContext :=
  let d0 := ctx.deck.dropLast
  let (c, d1) := popCard d0
  { ctx with deck := d1, communityCards := ctx.communityCards ++ [c] }

/-- `dealRiver`: burn one, deal one. -/
def dealRiver (ctx : GameContext) : GameContext :=
  let d0 := ctx.deck.dropLast
  let (c, d1) := popCard d0
  { ctx with deck := d1, communityCards := ctx.communityCards ++ [c] }

/-- The winner scan inside `awardPot`: keep the best hand so far and the list
of players tied with it; a strictly better hand resets the list, an equal
hand is appended. -/
def scanWinners (cc : List Card) :
    List Player → List Player → HandResult → Except String (List Player × HandResult)
  | [], ws, best => .ok (ws, best)
  | p :: rest, ws, best => do
      let hand ← evaluateHand p.holeCards cc
      let diff := compareHands hand best
      if diff > 0 then scanWinners cc rest [p] hand
      else if diff = 0 then scanWinners cc rest (ws ++ [p]) best
      else scanWinners cc rest ws best

/-- The winners of a showdown as `awardPot` computes them: seed the scan with
the first non-folded non-spectator player. -/
def computeWinners (ctx : GameContext) : Except String (List Player × HandResult) :=
  match ctx.players.filter (fun p => ¬p.isFolded ∧ ¬p.isSpectator) with
  | [] => .error "no active players"
  | a :: rest => do
      let best ← evaluateHand a.holeCards ctx.communityCards
      scanWinners ctx.communityCards rest [a] best

/-- `awardPot`: no active player → context unchanged; otherwise each winner
receives `Math.floor(pot / winners.length)` (floor division, `Int.fdiv`) and
the pot is set to 0.  Hand evaluation errors propagate. -/
def awardPot (ctx : GameContext) : Except String GameContext :=
  let activePlayers := ctx.players.filter fun p => ¬p.isFolded ∧ ¬p.isSpectator
  if activePlayers.isEmpty then .ok ctx
  else do
    let (winners, _) ← computeWinners ctx
    let splitPot := Int.fdiv ctx.pot winners.length
    let players := ctx.players.map fun p =>
      if winners.any (fun w => w.id = p.id) then
        { p with tiles := p.tiles + splitPot }
      else p
    .ok { ctx with
            players := players,
            pot := 0,
            history := ctx.history ++ ["Winner(s): " ++
              String.intercalate ", " (winners.map Player.name)] }

/-- `cleanupRound`: broke players become folded spectators (their hole cards
are *not* cleared), everyone else is reset; dealer button advances one seat;
community cards cleared; phase back to LOBBY. -/
def cleanupRound (ctx : GameContext) : GameContext :=
  { ctx with
      players := ctx.players.map fun p =>
        if p.tiles ≤ 0 then { p with isSpectator := true, isFolded := true }
        else { p with holeCards := [], isFolded := false },
      communityCards := [],
      dealerIndex := (ctx.dealerIndex + 1) % ctx.players.length,
      phase := "LOBBY" }

/-- The loop of the `nextPlayer` action: step to the following seat and keep
advancing (at most N attempts) until a non-spectator, non-folded seat with
chips is found. -/
def nextPlayerGo (players : List Player) : Nat → Nat → Nat
  | i, 0 => i
  | i, fuel + 1 =>
      let p := players.getD i default
      if ¬p.isSpectator ∧ ¬p.isFolded ∧ p.tiles > 0 then i
      else nextPlayerGo players ((i + 1) % players.length) fuel

/-- `nextPlayer`: advance `activePlayerIndex` to the next eligible seat. -/
def nextPlayer (ctx : GameContext) : GameContext :=
  { ctx with activePlayerIndex :=
      (nextPlayerGo ctx.players ((ctx.activePlayerIndex + 1) % ctx.players.length)
        ctx.players.length) }

/-- The machine's state nodes.  `DEALING` and `CLEANUP` are transient
(`always` leaves them immediately); the `ACTING` child of each street is the
only child, so streets are flattened to one node each. -/
inductive MState where
  | lobby | preFlop | flop | turn | river | reveal | cleanup
deriving DecidableEq, Repr

/-- Entry into a street node: the street's `entry` actions. `PRE_FLOP` has
none (dealing happened in `DEALING`); the other streets deal and reset. -/
def streetEntry : MState → GameContext → GameContext
  | .flop, ctx => prepareBettingRound (dealFlop ctx)
  | .turn, ctx => prepareBettingRound (dealTurn ctx)
  | .river, ctx => prepareBettingRound (dealRiver ctx)
  | _, ctx => ctx

/-- Target of the street's `isRoundComplete` always-transition. -/
def streetNext : MState → MState
  | .preFlop => .flop
  | .flop => .turn
  | .turn => .river
  | _ => .reveal

/-- Resolve the `always` transitions of an `ACTING` node (checked on entry
and after every handled event): `onlyOnePlayerLeft` → REVEAL,
`isRoundComplete` → next street (running its entry actions, then its own
always transitions).  Entering REVEAL runs `awardPot`.  The fuel bounds the
cascade through at most the four streets. -/
def resolveAlways : Nat → MState → GameContext → Except String (MState × GameContext)
  | 0, s, ctx => .ok (s, ctx)
  | fuel + 1, s, ctx =>
      match s with
      | .preFlop | .flop | .turn | .river =>
          if onlyOnePlayerLeft ctx then do
            let ctx' ← awardPot ctx
            .ok (.reveal, ctx')
          else if isBettingComplete ctx then
            let s' := streetNext s
            if s' = .reveal then do
              let ctx' ← awardPot ctx
              .ok (.reveal, ctx')
            else resolveAlways fuel s' (streetEntry s' ctx)
          else .ok (s, ctx)
      | _ => .ok (s, ctx)

/-- One step of the machine on a user event.  `deckInput` is the permutation
that `shuffleDeck(generateDeck())` produces when `START_GAME` fires; it is
ignored by every other event.  Events with no transition in the current
state, and events whose guard fails, leave the configuration unchanged
(XState drops them).  The `after(5000)` REVEAL → CLEANUP transition is
modelled by `stepRevealTimer` below. -/
def step (deckInput : List Card) (s : MState) (ctx : GameContext)
    (e : GameEvent) : Except String (MState × GameContext) :=
  match s, e with
  | .lobby, .joinRoom p =>
      .ok (.lobby, { ctx with
        players := ctx.players ++ [p],
        history := ctx.history ++ [p.name ++ " joined."] })
  | .lobby, .startGame _ =>
      if canStartGame ctx then
        resolveAlways 5 .preFlop (postBlinds (shuffleAndDealWith deckInput ctx))
      else .ok (.lobby, ctx)
  | .preFlop, .commit pid _ | .flop, .commit pid _
  | .turn, .commit pid _ | .river, .commit pid _ =>
      if isTurn ctx pid then do
        let ctx1 ← handleCommit ctx e
        resolveAlways 5 s (nextPlayer ctx1)
      else .ok (s, ctx)
  | .preFlop, .fold pid | .flop, .fold pid
  | .turn, .fold pid | .river, .fold pid =>
      if isTurn ctx pid then do
        let ctx1 ← handleFold ctx e
        resolveAlways 5 s (nextPlayer ctx1)
      else .ok (s, ctx)
  | .preFlop, .check pid =>
      if isTurn ctx pid then do
        let ctx1 ← handleCheck ctx e
        resolveAlways 5 s (nextPlayer ctx1)
      else .ok (s, ctx)
  | .flop, .check pid | .turn, .check pid | .river, .check pid =>
      -- In these states the CHECK transition's action list is only
      -- `['nextPlayer']`; `handleCheck` is not run.
      if isTurn ctx pid then
        resolveAlways 5 s (nextPlayer ctx)
      else .ok (s, ctx)
  | _, _ => .ok (s, ctx)

/-- The `after: { 5000: 'CLEANUP' }` transition out of REVEAL: run
`cleanupRound`.  (In the source CLEANUP then loops to DEALING via `always`;
the model stops at the freshly cleaned context.) -/
def stepRevealTimer (s : MState) (ctx : GameContext) : MState × GameContext :=
  match s with
  | .reveal => (.cleanup, cleanupRound ctx)
  | _ => (s, ctx)

/-- Run a list of events from a configuration. -/
def runEvents (deckInput : List Card) :
    MState → GameContext → List GameEvent → Except String (MState × GameContext)
  | s, ctx, [] => .ok (s, ctx)
  | s, ctx, e :: es => do
      let (s', ctx') ← step deckInput s ctx e
      runEvents deckInput s' ctx' es

/-- The initial context of `createMachine`. -/
def initialContext (roomId : String) : GameContext :=
  { roomId := roomId, players := [], communityCards := [], pot := 0,
    currentCommitment := 0, phase := "LOBBY", activePlayerIndex := 0,
    history := [], deck := [], dealerIndex := 0, roundBets := [],
    playersWhoActed := [] }

/-- The snapshot a client receives (`publicState` in `syncState`,
`roomLogic.ts`): the deep-copied context after `delete publicState.deck` and
`delete publicState.playersWhoActed` — those two fields are absent from this
structure by construction; `dealerIndex` and `roundBets` survive the copy. -/
structure PublicState where
  roomId : String
  players : List Player
  communityCards : List Card
  pot : Int
  currentCommitment : Int
  phase : String
  activePlayerIndex : Nat
  history : List String
  dealerIndex : Nat
  roundBets : List (String × Int)
deriving DecidableEq, Repr

/-- The per-recipient redaction in `syncState`: every player other than the
recipient gets `holeCards := []`; then `deck` and `playersWhoActed` are
dropped. -/
def redactState (state : GameContext) (viewerId : String) : PublicState :=
  { roomId := state.roomId,
    players := state.players.map fun p =>
      if p.id ≠ viewerId then { p with holeCards := [] } else p,
    communityCards := state.communityCards,
    pot := state.pot,
    currentCommitment := state.currentCommitment,
    phase := state.phase,
    activePlayerIndex := state.activePlayerIndex,
    history := state.history,
    dealerIndex := state.dealerIndex,
    roundBets := state.roundBets }

/-! ### The betting-round-completion predicate as the specification words it

Used for the refinement comparison of claim C3; this definition follows the
spec's sentence, *not* the source. -/

/-- The spec's set `A`: active non-folded non-spectator players with
`tiles > 0` or a positive round bet. -/
def specSetA (ctx : GameContext) : List Player :=
  ctx.players.filter fun p =>
    ¬p.isFolded ∧ ¬p.isSpectator ∧ (p.tiles > 0 ∨ getBet ctx.roundBets p.id > 0)

/-- The spec's betting-round-completion condition: every player in `A` has
matched the commitment or is all-in, and every player in `A` has acted. -/
def specRoundComplete (ctx : GameContext) : Bool :=
  (specSetA ctx).all (fun p =>
      getBet ctx.roundBets p.id = ctx.currentCommitment ∨ p.tiles = 0) &&
  (specSetA ctx).all (fun p => ctx.playersWhoActed.contains p.id)

/-! ### Concrete fixtures used by witnesses and counterexamples -/

/-- A fresh player as the gateway creates one (1000 starting tiles). -/
def mkPlayer (pid nm : String) : Player :=
  { id := pid, name := nm, tiles := 1000, holeCards := [],
    isFolded := false, isSpectator := false }

/-- The 14 cards consumed in the counterexample hand, listed in reverse pop
order (the dealer pops from the end): `p1` gets 2♥ 3♥, `p2` gets 8♣ 9♣,
`p3` gets 2♦ 3♣, and with the burns 7♥ 7♦ 7♣ the board comes
A♠ K♠ Q♠ / J♠ / 10♠ — a royal flush on the board, so the two players who
reach showdown tie. -/
def cxUsed : List Card :=
  [⟨.spade,.ten⟩, ⟨.club,.seven⟩, ⟨.spade,.jack⟩, ⟨.diamond,.seven⟩,
   ⟨.spade,.queen⟩, ⟨.spade,.king⟩, ⟨.spade,.ace⟩, ⟨.heart,.seven⟩,
   ⟨.club,.three⟩, ⟨.diamond,.two⟩, ⟨.club,.nine⟩, ⟨.club,.eight⟩,
   ⟨.heart,.three⟩, ⟨.heart,.two⟩]

/-- A full 52-card shuffle outcome whose tail is `cxUsed`. -/
def cxDeck : List Card :=
  (generateDeck.filter (fun c => ¬ c ∈ cxUsed)) ++ cxUsed

/-- Seating and hand start for the counterexample room. -/
def cxSetupEvents : List GameEvent :=
  [.joinRoom (mkPlayer "p1" "Ann"), .joinRoom (mkPlayer "p2" "Ben"),
   .joinRoom (mkPlayer "p3" "Cal"), .startGame "p1"]

/-- The intents of the counterexample hand: `p1` (dealer, first to act)
calls 20; `p2` (small blind) undercalls 1 (the machine accepts any amount);
`p3` (big blind) checks; `p1` checks; `p2` folds, leaving an odd pot of 51;
then everyone commits 0 on every remaining street (a commit of 0 counts as
acting, unlike CHECK, which the FLOP/TURN/RIVER states fail to record). -/
def cxIntentEvents : List GameEvent :=
  [.commit "p1" 20, .commit "p2" 1, .check "p3", .check "p1", .fold "p2",
   .commit "p2" 0, .commit "p3" 0, .commit "p1" 0,
   .commit "p2" 0, .commit "p3" 0, .commit "p1" 0,
   .commit "p2" 0, .commit "p3" 0, .commit "p1" 0]

/-- A showdown context with two tied winners and an odd pot of 5 chips:
both players play the royal flush on the board. -/
def splitCtx : GameContext :=
  { roomId := "r", players :=
      [{ id := "a", name := "A", tiles := 100,
         holeCards := [⟨.heart,.two⟩, ⟨.heart,.three⟩],
         isFolded := false, isSpectator := false },
       { id := "b", name := "B", tiles := 100,
         holeCards := [⟨.diamond,.two⟩, ⟨.diamond,.three⟩],
         isFolded := false, isSpectator := false }],
    communityCards := [⟨.spade,.ace⟩, ⟨.spade,.king⟩, ⟨.spade,.queen⟩,
                       ⟨.spade,.jack⟩, ⟨.spade,.ten⟩],
    pot := 5, currentCommitment := 0, phase := "COMMITMENT",
    activePlayerIndex := 0, history := [], deck := [], dealerIndex := 0,
    roundBets := [], playersWhoActed := [] }

/-- Pre-flop context where `p1` (on turn, 50 tiles, facing commitment 20)
can attempt an over-stack commit. -/
def overCommitCtx : GameContext :=
  { roomId := "r", players :=
      [{ id := "p1", name := "A", tiles := 50, holeCards := [],
         isFolded := false, isSpectator := false },
       { id := "p2", name := "B", tiles := 100, holeCards := [],
         isFolded := false, isSpectator := false }],
    communityCards := [], pot := 30, currentCommitment := 20,
    phase := "DEALING", activePlayerIndex := 0, history := [], deck := [],
    dealerIndex := 0, roundBets := [("p2", 20)], playersWhoActed := [] }

/-- A flop-street context with two live players, no outstanding bet, `p1`
on turn. -/
def flopCheckCtx : GameContext :=
  { roomId := "r", players :=
      [{ id := "p1", name := "A", tiles := 100, holeCards := [],
         isFolded := false, isSpectator := false },
       { id := "p2", name := "B", tiles := 100, holeCards := [],
         isFolded := false, isSpectator := false }],
    communityCards := [], pot := 40, currentCommitment := 0,
    phase := "COMMITMENT", activePlayerIndex := 0, history := [], deck := [],
    dealerIndex := 0, roundBets := [], playersWhoActed := [] }

/-- Pre-flop context where `p1` is on turn facing an unmatched bet
(`roundBets[p1] = 0 < currentCommitment = 20`). -/
def facingBetCtx : GameContext :=
  { roomId := "r", players :=
      [{ id := "p1", name := "A", tiles := 100, holeCards := [],
         isFolded := false, isSpectator := false },
       { id := "p2", name := "B", tiles := 80, holeCards := [],
         isFolded := false, isSpectator := false }],
    communityCards := [], pot := 20, currentCommitment := 20,
    phase := "DEALING", activePlayerIndex := 0, history := [], deck := [],
    dealerIndex := 0, roundBets := [("p2", 20)], playersWhoActed := ["p2"] }

/-- A street context with an all-in player: `p1` is not folded, has a round
bet of 40 but 0 tiles and has *not* acted; `p2` and `p3` have matched the
commitment of 40 and acted. -/
def allInCtx : GameContext :=
  { roomId := "r", players :=
      [{ id := "p1", name := "A", tiles := 0, holeCards := [],
         isFolded := false, isSpectator := false },
       { id := "p2", name := "B", tiles := 60, holeCards := [],
         isFolded := false, isSpectator := false },
       { id := "p3", name := "C", tiles := 60, holeCards := [],
         isFolded := false, isSpectator := false }],
    communityCards := [], pot := 120, currentCommitment := 40,
    phase := "DEALING", activePlayerIndex := 1, history := [], deck := [],
    dealerIndex := 0,
    roundBets := [("p1", 40), ("p2", 40), ("p3", 40)],
    playersWhoActed := ["p2", "p3"] }

/-- The spec's S3 scenario right before the big blind's raise: three players,
blinds 10/20 posted, `p3` and `p1` have called to 20 and acted, `p2` (big
blind, on turn) is about to commit 40 more, raising to 60. -/
def raiseCtx : GameContext :=
  { roomId := "r", players :=
      [{ id := "p1", name := "P1", tiles := 980, holeCards := [],
         isFolded := false, isSpectator := false },
       { id := "p2", name := "P2", tiles := 980, holeCards := [],
         isFolded := false, isSpectator := false },
       { id := "p3", name := "P3", tiles := 980, holeCards := [],
         isFolded := false, isSpectator := false }],
    communityCards := [], pot := 60, currentCommitment := 20,
    phase := "DEALING", activePlayerIndex := 1, history := [], deck := [],
    dealerIndex := 0,
    roundBets := [("p3", 20), ("p1", 20), ("p2", 20)],
    playersWhoActed := ["p3", "p1"] }

/-- A legal seven-card deal used to witness evaluator totality. -/
def witnessHole : List Card := [⟨.spade,.ace⟩, ⟨.heart,.ace⟩]

def witnessBoard : List Card :=
  [⟨.diamond,.ace⟩, ⟨.club,.four⟩, ⟨.spade,.nine⟩, ⟨.heart,.three⟩,
   ⟨.diamond,.king⟩]

/-! ## Theorems -/

/-- C9: straight detection on descending unique-rank lists.
{9,10,J,Q,K,A} (descending `[14,13,12,11,10,9]`) yields the Ace-high
straight (the highest qualifying 5-window, with `first − last == 4`, wins);
{A,2,3,4,5} (`[14,5,4,3,2]`), where no 5-window qualifies, is recognized as
the wheel `[5,4,3,2,1]` with the Ace valued 1; {10,J,Q,K,A}
(`[14,13,12,11,10]`) is an Ace-high straight. -/
theorem straight_detection_examples :
    getStraight [14, 13, 12, 11, 10, 9] = some [14, 13, 12, 11, 10] ∧
    getStraight [14, 5, 4, 3, 2] = some [5, 4, 3, 2, 1] ∧
    getStraight [14, 13, 12, 11, 10] = some [14, 13, 12, 11, 10] := by
  refine ⟨?_, ?_, ?_⟩ <;> rfl

/-- C8: the 30-second turn timer's transition runs `handleFold` on the
delayed `after(30000)` event, which is not a `FOLD` event, so the action's
`assertEvent(event, 'FOLD')` always fails: no fold is applied and the
transition is not the well-defined context change the spec describes. -/
theorem timeout_fold_assertion_fails (ctx : GameContext) :
    handleFold ctx GameEvent.afterTimeout =
      Except.error "assertEvent: expected FOLD" := rfl

/-- C7: snapshot redaction.  A snapshot built for viewer `v` keeps every
seat's identity, blanks the hole cards of every player other than `v`, and
preserves `v`'s own hole cards; the `deck` and `playersWhoActed` fields do
not exist on the emitted `PublicState` structure at all. -/
theorem snapshot_redaction (s : GameContext) (v : String) :
    (redactState s v).players.length = s.players.length ∧
    ∀ i : Nat,
      ((redactState s v).players.getD i default).id =
        (s.players.getD i default).id ∧
      ((redactState s v).players.getD i default).holeCards =
        (if (s.players.getD i default).id = v
         then (s.players.getD i default).holeCards else []) := by
  constructor
  · simp [redactState]
  · intro i
    by_cases hi : i < s.players.length
    · have hlen : i < (s.players.map (fun p =>
          if p.id ≠ v then { p with holeCards := [] } else p)).length := by
        simpa using hi
      simp only [redactState, List.getD_eq_getElem?_getD, List.getElem?_map,
        List.getElem?_eq_getElem hi]
      by_cases h : (s.players[i]).id = v <;> simp [h]
    · have hlen : (redactState s v).players.length = s.players.length := by
        simp [redactState]
      have h1 : s.players.getD i default = default :=
        List.getD_eq_default _ _ (le_of_not_lt hi)
      have h2 : (redactState s v).players.getD i default = default :=
        List.getD_eq_default _ _ (by omega)
      rw [h1, h2]
      constructor
      · rfl
      · by_cases h : (default : Player).id = v <;> simp [h, default]

/-- C4 (failing input): the machine does not validate commit amounts — the
source only carries the comment `// Validation: event.amount should not
exceed player.tiles`.  In `overCommitCtx`, player `p1` holds 50 tiles yet
their `COMMIT 100` is accepted on their turn: the stack goes to −50 and the
pot grows by 100, contradicting the claim that such an intent leaves the
context unchanged. -/
theorem overcommit_changes_context :
    (step [] .preFlop overCommitCtx (.commit "p1" 100)).map
        (fun r => (r.1, r.2.players.map Player.tiles, r.2.pot)) =
      .ok (.preFlop, [-50, 100], 130) ∧
    overCommitCtx.players.map Player.tiles = [50, 100] ∧
    overCommitCtx.pot = 30 := by
  refine ⟨rfl, rfl, rfl⟩

/-- C5 (failing input): CHECK is broken on the post-flop streets and never
legality-checked.  In `flopCheckCtx` the FLOP state's CHECK transition runs
only `nextPlayer` (its action list omits `handleCheck`), so the checker is
not added to `playersWhoActed`; and in `facingBetCtx` a pre-flop CHECK while
facing an unmatched bet (`roundBets[p1] = 0 < currentCommitment = 20`) is
accepted and changes the context instead of being rejected. -/
theorem check_semantics_broken :
    (step [] .flop flopCheckCtx (.check "p1")).map
        (fun r => (r.1, r.2.playersWhoActed, r.2.activePlayerIndex)) =
      .ok (.flop, [], 1) ∧
    (step [] .preFlop facingBetCtx (.check "p1")).map
        (fun r => (r.1, r.2.playersWhoActed)) =
      .ok (.preFlop, ["p2", "p1"]) := by
  refine ⟨rfl, rfl⟩

/-- C2 (counterexample): with two tied winners and pot 5, `awardPot` gives
each winner `⌊5/2⌋ = 2` and zeroes the pot; no winner — in particular not
the one first in seat order after the dealer — receives the leftover chip,
which simply vanishes (100 + 2 + 1 = 103 is nobody's stack). -/
theorem split_pot_leftover_not_awarded :
    (awardPot splitCtx).map (fun c => (c.pot, c.players.map Player.tiles)) =
      .ok (0, [102, 102]) ∧
    splitCtx.pot = 5 ∧ splitCtx.players.map Player.tiles = [100, 100] := by
  refine ⟨rfl, rfl, rfl⟩

/-- C3 (counterexample): in `allInCtx` the all-in player `p1` (0 tiles,
round bet 40, not folded) has not acted, so the spec's completion predicate
(over its set `A`, which includes players with a positive round bet) is
false, yet the machine's `isBettingComplete` — which drops `tiles = 0`
players from consideration entirely — reports the round complete. -/
theorem betting_complete_ignores_allin :
    isBettingComplete allInCtx = true ∧ specRoundComplete allInCtx = false := by
  refine ⟨by decide, by decide⟩

/-- C1 (counterexample): a legal hand that destroys a chip.  `cxDeck` is a
permutation of the 52-card deck; after seating three 1000-tile players and
starting the hand the table holds 3000 chips, but after the listed intents
the hand reaches REVEAL with only 2999: the two tied winners split the odd
pot 51 as ⌊51/2⌋ = 25 each and the leftover chip vanishes, so `Σ tiles + pot`
is not constant from DEALING to CLEANUP. -/
theorem chip_destroyed_in_legal_hand :
    cxDeck.Perm generateDeck ∧
    (runEvents cxDeck .lobby (initialContext "room1") cxSetupEvents).map
        (fun r => (r.1, chipSum r.2)) = .ok (.preFlop, 3000) ∧
    (runEvents cxDeck .lobby (initialContext "room1")
        (cxSetupEvents ++ cxIntentEvents)).map
        (fun r => (r.1, chipSum r.2)) = .ok (.reveal, 2999) := by
  refine ⟨by decide, rfl, rfl⟩

/-! ### List helper lemmas -/

/-- Updating one player's tiles by `-amt` changes the tile sum by
`-amt` times the number of players with that id. -/
theorem sumTiles_commit_update (l : List Player) (pid : String) (amt : Int) :
    ((l.map fun p =>
        if p.id = pid then { p with tiles := p.tiles - amt } else p).map
      Player.tiles).sum
      = (l.map Player.tiles).sum - amt * (l.countP fun p => p.id = pid) := by
  induction l with
  | nil => simp
  | cons a l ih =>
      simp only [List.map_cons, List.sum_cons, List.countP_cons, ih]
      by_cases h : a.id = pid
      · simp [h]
        ring
      · simp [h]
        ring

/-- Adding `split` to each player matched by `pr` changes the tile sum by
`split` times the number of matches. -/
theorem sumTiles_award_update (l : List Player) (pr : Player → Bool)
    (split : Int) :
    ((l.map fun p =>
        if pr p then { p with tiles := p.tiles + split } else p).map
      Player.tiles).sum
      = (l.map Player.tiles).sum + split * (l.countP pr) := by
  induction l with
  | nil => simp
  | cons a l ih =>
      simp only [List.map_cons, List.sum_cons, List.countP_cons, ih]
      by_cases h : pr a
      · simp [h]
        ring
      · simp [h]
        ring

/-- A map that does not touch tiles does not change the tile sum. -/
theorem sumTiles_map_preserve (l : List Player) (f : Player → Player)
    (h : ∀ p, (f p).tiles = p.tiles) :
    ((l.map f).map Player.tiles).sum = (l.map Player.tiles).sum := by
  induction l with
  | nil => simp
  | cons a l ih =>
      simp only [List.map_cons, List.sum_cons]
      rw [h, ih]

/-- If the player ids are distinct and some member has id `pid`, exactly one
player matches `pid`. -/
theorem countP_id_eq_one (l : List Player) (pid : String)
    (hn : (l.map Player.id).Nodup) (p : Player) (hp : p ∈ l)
    (hid : p.id = pid) :
    (l.countP fun q => q.id = pid) = 1 := by
  have hmem : pid ∈ l.map Player.id := List.mem_map.mpr ⟨p, hp, hid⟩
  have h1 : (l.map Player.id).count pid = 1 :=
    List.count_eq_one_of_mem hn hmem
  have h2 : (l.map Player.id).countP (fun x => x = pid)
      = l.countP (fun q => q.id = pid) := List.countP_map _ _ _
  rw [← h2]
  rw [← h1, List.count]
  exact List.countP_congr (fun x _ => by by_cases hx : x = pid <;> simp [hx])

/-- Counting matches of a disjunction of element-wise exclusive predicates
adds the separate counts. -/
theorem countP_or_disjoint (l : List α) (p q : α → Bool)
    (h : ∀ a ∈ l, ¬(p a = true ∧ q a = true)) :
    (l.countP fun a => p a || q a) = l.countP p + l.countP q := by
  induction l with
  | nil => simp
  | cons a l ih =>
      have ha := h a (List.mem_cons_self a l)
      have hrest : ∀ b ∈ l, ¬(p b = true ∧ q b = true) :=
        fun b hb => h b (List.mem_cons_of_mem a hb)
      by_cases hp : p a <;> by_cases hq : q a <;>
        simp [List.countP_cons, hp, hq, ih hrest] at ha ⊢ <;> omega

/-- If the ids in `ids` are distinct and `W` is a distinct sublist of them,
exactly `W.length` elements of `ids` lie in `W`. -/
theorem countP_mem_of_nodup (ids : List String) (W : List String)
    (hn : ids.Nodup) (hw : W.Nodup) (hsub : ∀ w ∈ W, w ∈ ids) :
    (ids.countP fun x => W.contains x) = W.length := by
  induction W with
  | nil => simp
  | cons w W ih =>
      have hwW : w ∉ W := (List.nodup_cons.mp hw).1
      have hcnt : (ids.countP fun x => (w :: W).contains x)
          = (ids.countP fun x => x = w) + ids.countP (fun x => W.contains x) := by
        have hform : (ids.countP fun x => (w :: W).contains x)
            = ids.countP fun x => (x = w : Bool) || W.contains x :=
          List.countP_congr (fun x _ => by
            by_cases hx : x = w <;> simp [List.contains_cons, hx])
        rw [hform]
        refine countP_or_disjoint ids _ _ ?_
        intro a _ ⟨h1, h2⟩
        have : a = w := by simpa using h1
        subst this
        exact hwW (by simpa using h2)
      rw [hcnt]
      have h1 : (ids.countP fun x => x = w) = 1 := by
        have hmem : w ∈ ids := hsub w (List.mem_cons_self w W)
        have := List.count_eq_one_of_mem hn hmem
        rw [← this, List.count]
        exact List.countP_congr (fun x _ => by by_cases hx : x = w <;> simp [hx])
      rw [h1, ih (List.nodup_cons.mp hw).2
        (fun x hx => hsub x (List.mem_cons_of_mem w hx))]
      simp only [List.length_cons]
      omega

/-- The winners accumulated by `scanWinners` form a sublist of the seed
winners followed by the remaining players. -/
theorem scanWinners_sublist (cc : List Card) :
    ∀ (rest ws : List Player) (best : HandResult)
      (res : List Player × HandResult),
      scanWinners cc rest ws best = .ok res → res.1.Sublist (ws ++ rest) := by
  intro rest
  induction rest with
  | nil =>
      intro ws best res h
      simp only [scanWinners] at h
      cases h
      simp
  | cons p rest ih =>
      intro ws best res h
      simp only [scanWinners] at h
      cases hev : evaluateHand p.holeCards cc with
      | error e => rw [hev] at h; simp [Bind.bind, Except.bind] at h
      | ok hand =>
          rw [hev] at h
          simp only [Bind.bind, Except.bind] at h
          by_cases h1 : compareHands hand best > 0
          · rw [if_pos h1] at h
            have := ih [p] hand res h
            exact this.trans (List.sublist_append_right ws (p :: rest))
          · rw [if_neg h1] at h
            by_cases h2 : compareHands hand best = 0
            · rw [if_pos h2] at h
              have := ih (ws ++ [p]) best res h
              simpa using this
            · rw [if_neg h2] at h
              have := ih ws best res h
              exact this.trans
                (List.Sublist.append_left (List.sublist_cons_self p rest) ws)



/-- CHECK moves no chips. -/
theorem handleCheck_conserves (ctx : GameContext) (e : GameEvent)
    (ctx' : GameContext) (h : handleCheck ctx e = .ok ctx') :
    chipSum ctx' = chipSum ctx := by
  cases e <;> simp [handleCheck] at h
  subst h
  rfl

/-- FOLD moves no chips. -/
theorem handleFold_conserves (ctx : GameContext) (e : GameEvent)
    (ctx' : GameContext) (h : handleFold ctx e = .ok ctx') :
    chipSum ctx' = chipSum ctx := by
  cases e <;> simp [handleFold] at h
  case fold pid =>
    subst h
    simp only [chipSum]
    rw [sumTiles_map_preserve]
    intro p
    by_cases hp : p.id = pid <;> simp [hp]

/-- COMMIT conserves chips when player ids are distinct: the amount leaves
the committer's stack and lands in the pot. -/
theorem handleCommit_conserves (ctx : GameContext) (pid : String) (amt : Int)
    (ctx' : GameContext) (hn : (ctx.players.map Player.id).Nodup)
    (h : handleCommit ctx (.commit pid amt) = .ok ctx') :
    chipSum ctx' = chipSum ctx := by
  simp only [handleCommit] at h
  cases hfind : ctx.players.find? (fun p => p.id = pid) with
  | none =>
      rw [hfind] at h
      simp at h
      subst h
      rfl
  | some player =>
      rw [hfind] at h
      simp at h
      subst h
      have hmem := List.mem_of_find?_eq_some hfind
      have hpid : player.id = pid := by simpa using List.find?_some hfind
      have hcount := countP_id_eq_one ctx.players pid hn player hmem hpid
      simp only [chipSum]
      rw [sumTiles_commit_update, hcount]
      ring

/-- `nextIdxGo` stays within range. -/
theorem nextIdxGo_lt (players : List Player) (start : Nat)
    (hN : 0 < players.length) :
    ∀ fuel i, i < players.length →
      nextIdxGo players start i fuel < players.length := by
  intro fuel
  induction fuel with
  | zero => intro i hi; simpa [nextIdxGo] using hi
  | succ n ih =>
      intro i hi
      simp only [nextIdxGo]
      split
      · split
        · exact Nat.mod_lt _ hN
        · exact ih _ (Nat.mod_lt _ hN)
      · exact hi

/-- `getNextPlayerIndex` stays within range. -/
theorem getNextPlayerIndex_lt (players : List Player) (start : Nat)
    (hN : 0 < players.length) :
    getNextPlayerIndex players start < players.length :=
  nextIdxGo_lt players start hN _ _ (Nat.mod_lt _ hN)

/-- Setting index `i` of an integer list changes the sum by the difference
at that position. -/
theorem sumInt_set (l : List Int) (i : Nat) (x : Int) (h : i < l.length) :
    (l.set i x).sum = l.sum - l[i] + x := by
  induction l generalizing i with
  | nil => simp at h
  | cons a t ih =>
      cases i with
      | zero =>
          simp only [List.set, List.sum_cons, List.getElem_cons_zero]
          ring
      | succ n =>
          have hn : n < t.length := by simpa using h
          simp only [List.set, List.sum_cons, List.getElem_cons_succ]
          rw [ih n hn]
          ring

/-- Posting blinds conserves chips when the hand starts with an empty pot
and the small- and big-blind seats are distinct. -/
theorem postBlinds_conserves (ctx : GameContext) (hpot : ctx.pot = 0)
    (hne : getNextPlayerIndex ctx.players ctx.dealerIndex ≠
      getNextPlayerIndex ctx.players
        (getNextPlayerIndex ctx.players ctx.dealerIndex)) :
    chipSum (postBlinds ctx) = chipSum ctx := by
  simp only [postBlinds]
  split
  · rfl
  · rename_i hlen
    have hN : 0 < ctx.players.length := by
      by_contra hcon
      have : ctx.players = [] := List.eq_nil_of_length_eq_zero (by omega)
      simp [this] at hlen
    set sb := getNextPlayerIndex ctx.players ctx.dealerIndex with hsb
    set bb := getNextPlayerIndex ctx.players sb with hbb
    have hsbLt : sb < ctx.players.length := getNextPlayerIndex_lt _ _ hN
    have hbbLt : bb < ctx.players.length := getNextPlayerIndex_lt _ _ hN
    simp only [chipSum, hpot]
    have hsbD : ctx.players.getD sb default = ctx.players[sb] :=
      List.getD_eq_getElem _ _ hsbLt
    have hbbD : ctx.players.getD bb default = ctx.players[bb] :=
      List.getD_eq_getElem _ _ hbbLt
    rw [hsbD, hbbD]
    rw [List.map_set, List.map_set]
    have h1 : bb < ((ctx.players.map Player.tiles).set sb
        (ctx.players[sb].tiles - min ctx.players[sb].tiles 10)).length := by
      simpa using hbbLt
    have h2 : sb < (ctx.players.map Player.tiles).length := by simpa using hsbLt
    have h3 : bb < (ctx.players.map Player.tiles).length := by simpa using hbbLt
    rw [sumInt_set _ _ _ h1, sumInt_set _ _ _ h2]
    have hgs : ((ctx.players.map Player.tiles).set sb
        (ctx.players[sb].tiles - min ctx.players[sb].tiles 10))[bb]
        = (ctx.players.map Player.tiles)[bb] :=
      List.getElem_set_ne (fun hEq => hne hEq) _
    rw [hgs]
    have hms : (ctx.players.map Player.tiles)[sb] = ctx.players[sb].tiles := by
      simp
    have hmb : (ctx.players.map Player.tiles)[bb] = ctx.players[bb].tiles := by
      simp
    rw [hms, hmb]
    ring

/-- Awarding the pot adds `⌊pot/k⌋` to each of the `k` winners' stacks and
zeroes the pot, so exactly `pot − k·⌊pot/k⌋` chips leave the table. -/
theorem awardPot_sum (ctx ctx' : GameContext) (ws : List Player)
    (best : HandResult) (hn : (ctx.players.map Player.id).Nodup)
    (hw : computeWinners ctx = .ok (ws, best))
    (h : awardPot ctx = .ok ctx') :
    chipSum ctx' + (ctx.pot - ws.length * Int.fdiv ctx.pot ws.length)
      = chipSum ctx := by
  cases hfil : ctx.players.filter (fun p => ¬p.isFolded ∧ ¬p.isSpectator) with
  | nil =>
      simp only [computeWinners, hfil] at hw
      exact Except.noConfusion hw
  | cons a rest =>
      -- extract the scan equation from computeWinners
      have hcw := hw
      simp only [computeWinners, hfil] at hw
      cases hev : evaluateHand a.holeCards ctx.communityCards with
      | error e => rw [hev] at hw; simp [Bind.bind, Except.bind] at hw
      | ok b =>
          rw [hev] at hw
          simp only [Bind.bind, Except.bind] at hw
          have hwsSub : ws.Sublist (a :: rest) := by
            have := scanWinners_sublist ctx.communityCards rest [a] b
              (ws, best) hw
            simpa using this
          have hwsPlayers : ws.Sublist ctx.players :=
            hwsSub.trans (hfil ▸ ctx.players.filter_sublist)
          -- unfold awardPot
          simp only [awardPot] at h
          rw [hfil] at h
          simp only [List.isEmpty_cons, Bool.false_eq_true, if_false] at h
          rw [hcw] at h
          simp only [Bind.bind, Except.bind] at h
          injection h with h2
          subst h2
          simp only [chipSum]
          have hcongr : (ctx.players.countP fun p =>
              ws.any fun w => w.id = p.id)
              = ctx.players.countP fun p => (ws.map Player.id).contains p.id :=
            List.countP_congr (fun p _ => by
              by_cases hx : p.id ∈ ws.map Player.id
              · have h1 : ws.any (fun w => w.id = p.id) = true := by
                  rcases List.mem_map.mp hx with ⟨w, hwmem, hwid⟩
                  exact List.any_eq_true.mpr ⟨w, hwmem, by simp [hwid]⟩
                have h2 : (ws.map Player.id).contains p.id = true := by
                  simpa using hx
                rw [h1, h2]
              · have h1 : ws.any (fun w => w.id = p.id) = false := by
                  rw [List.any_eq_false]
                  intro w hwmem hcon
                  exact hx (List.mem_map.mpr ⟨w, hwmem, by simpa using hcon⟩)
                have h2 : (ws.map Player.id).contains p.id = false := by
                  simpa using hx
                rw [h1, h2])
          have hcount : (ctx.players.countP fun p =>
              (ws.map Player.id).contains p.id) = ws.length := by
            have hmap : (ctx.players.map Player.id).countP
                (fun x => (ws.map Player.id).contains x)
                = ctx.players.countP fun p => (ws.map Player.id).contains p.id :=
              List.countP_map _ _ _
            rw [← hmap]
            rw [countP_mem_of_nodup _ _ hn
              ((hwsPlayers.map Player.id).nodup hn)
              (fun x hx => (hwsPlayers.map Player.id).subset hx)]
            simp
          rw [sumTiles_award_update, hcongr, hcount]
          ring

/-- C1 (amended): chip conservation holds action by action except at pot
awarding.  CHECK and FOLD move no chips; COMMIT (given distinct player ids)
moves chips from the stack to the pot; posting blinds (on a fresh hand with
distinct SB/BB seats) moves the blinds into the pot; but `awardPot` changes
the total by `k·⌊pot/k⌋ − pot` for `k` winners — the total is preserved
exactly when `k` divides the pot (in particular for a single winner), and
`pot mod k` chips are destroyed otherwise. -/
theorem chip_conservation_per_action :
    (∀ ctx e ctx', handleCheck ctx e = .ok ctx' → chipSum ctx' = chipSum ctx) ∧
    (∀ ctx e ctx', handleFold ctx e = .ok ctx' → chipSum ctx' = chipSum ctx) ∧
    (∀ ctx pid amt ctx', (ctx.players.map Player.id).Nodup →
       handleCommit ctx (.commit pid amt) = .ok ctx' →
       chipSum ctx' = chipSum ctx) ∧
    (∀ ctx, ctx.pot = 0 →
       getNextPlayerIndex ctx.players ctx.dealerIndex ≠
         getNextPlayerIndex ctx.players
           (getNextPlayerIndex ctx.players ctx.dealerIndex) →
       chipSum (postBlinds ctx) = chipSum ctx) ∧
    (∀ ctx ctx' ws best, (ctx.players.map Player.id).Nodup →
       computeWinners ctx = .ok (ws, best) → awardPot ctx = .ok ctx' →
       chipSum ctx' = chipSum ctx - ctx.pot
         + ws.length * Int.fdiv ctx.pot ws.length ∧
       ((ws.length : Int) ∣ ctx.pot → chipSum ctx' = chipSum ctx)) := by
  refine ⟨handleCheck_conserves, handleFold_conserves,
    handleCommit_conserves, postBlinds_conserves, ?_⟩
  intro ctx ctx' ws best hn hw h
  have heq := awardPot_sum ctx ctx' ws best hn hw h
  constructor
  · linarith
  · intro hdvd
    have hk : (0 : Int) ≤ (ws.length : Int) := Int.ofNat_nonneg _
    have hcancel : (ws.length : Int) * Int.fdiv ctx.pot ws.length = ctx.pot := by
      rw [Int.fdiv_eq_ediv _ hk]
      exact Int.mul_ediv_cancel' hdvd
    linarith

/-- Witness for C1: the conservation theorem applied to the S3 raise —
`p2`'s COMMIT of 40 into `raiseCtx` leaves the 3000-chip total unchanged. -/
theorem chip_conservation_per_action_witness :
    (handleCommit raiseCtx (.commit "p2" 40)).map chipSum
      = .ok (chipSum raiseCtx) := by
  have hmain := chip_conservation_per_action
  have hEq : handleCommit raiseCtx (.commit "p2" 40)
      = .ok ((handleCommit raiseCtx
          (.commit "p2" 40)).toOption.getD raiseCtx) := rfl
  rw [hEq]
  exact congrArg Except.ok
    (hmain.2.2.1 raiseCtx "p2" 40 _ (by decide) hEq)

/-- C2 (amended): pot awarding at REVEAL.  With `k` winners as the award
scan computes them (players tied for the best hand), each winner's stack
grows by exactly `⌊pot/k⌋` and every other stack is unchanged; the pot is
then 0; a single winner (`k = 1`, in particular a sole surviving non-folded
player) receives the whole pot.  The leftover `pot mod k` chips are *not*
given to the winner first in seat order after the dealer — no one receives
them (see the counterexample). -/
theorem award_pot_floor_split (ctx ctx' : GameContext) (ws : List Player)
    (best : HandResult)
    (hw : computeWinners ctx = .ok (ws, best))
    (h : awardPot ctx = .ok ctx') :
    ctx'.pot = 0 ∧
    ctx'.players = (ctx.players.map fun p =>
      if p.id ∈ ws.map Player.id
      then { p with tiles := p.tiles + Int.fdiv ctx.pot ws.length } else p) ∧
    (ws.length = 1 → ctx'.players = (ctx.players.map fun p =>
      if p.id ∈ ws.map Player.id
      then { p with tiles := p.tiles + ctx.pot } else p)) := by
  cases hfil : ctx.players.filter (fun p => ¬p.isFolded ∧ ¬p.isSpectator) with
  | nil =>
      simp only [computeWinners, hfil] at hw
      exact Except.noConfusion hw
  | cons a rest =>
      simp only [awardPot] at h
      rw [hfil] at h
      simp only [List.isEmpty_cons, Bool.false_eq_true, if_false] at h
      rw [hw] at h
      simp only [Bind.bind, Except.bind] at h
      injection h with h2
      subst h2
      have hplayers : (ctx.players.map fun p =>
          if ws.any (fun w => w.id = p.id)
          then { p with tiles := p.tiles + Int.fdiv ctx.pot ws.length } else p)
          = (ctx.players.map fun p =>
          if p.id ∈ ws.map Player.id
          then { p with tiles := p.tiles + Int.fdiv ctx.pot ws.length } else p) := by
        refine List.map_eq_map_iff.mpr (fun p _ => ?_)
        by_cases hx : p.id ∈ ws.map Player.id
        · have h1 : ws.any (fun w => w.id = p.id) = true := by
            rcases List.mem_map.mp hx with ⟨w, hwmem, hwid⟩
            exact List.any_eq_true.mpr ⟨w, hwmem, by simp [hwid]⟩
          simp [h1, hx]
        · have h1 : ws.any (fun w => w.id = p.id) = false := by
            rw [List.any_eq_false]
            intro w hwmem hcon
            exact hx (List.mem_map.mpr ⟨w, hwmem, by simpa using hcon⟩)
          simp [h1, hx]
      refine ⟨rfl, hplayers, fun hone => ?_⟩
      rw [hplayers]
      refine List.map_eq_map_iff.mpr (fun p _ => ?_)
      rw [hone]
      simp [Int.fdiv_one]



/-- C3 (amended): the machine's betting round is complete iff at most one
non-folded non-spectator remains, or every non-folded non-spectator player
with `tiles > 0` has a round bet of at least `currentCommitment` and is
recorded in `playersWhoActed`.  Unlike the spec's set `A`, players with
`tiles = 0` (all-in) are ignored entirely — they need not appear in
`playersWhoActed` — and the bet comparison is `≥`, not `=`. -/
theorem betting_complete_characterization (ctx : GameContext) :
    isBettingComplete ctx = true ↔
      ((ctx.players.filter fun p => ¬p.isFolded ∧ ¬p.isSpectator).length ≤ 1 ∨
       ∀ p ∈ ctx.players, ¬p.isFolded → ¬p.isSpectator → 0 < p.tiles →
         (ctx.currentCommitment ≤ getBet ctx.roundBets p.id ∧
          p.id ∈ ctx.playersWhoActed)) := by
  simp only [isBettingComplete]
  split
  · rename_i h
    exact ⟨fun _ => Or.inl h, fun _ => rfl⟩
  · rename_i h
    rw [Bool.and_eq_true, List.all_eq_true, List.all_eq_true]
    constructor
    · rintro ⟨hm, ha⟩
      right
      intro p hp hf hs ht
      have hpf : p ∈ ctx.players.filter
          (fun p => ¬p.isFolded ∧ ¬p.isSpectator ∧ p.tiles > 0) :=
        List.mem_filter.mpr ⟨hp, by simp [hf, hs, ht]⟩
      refine ⟨by simpa using hm p hpf, ?_⟩
      have := ha p hpf
      simpa using List.mem_of_elem_eq_true (by simpa using this)
    · rintro (hle | hall)
      · exact absurd hle h
      · constructor
        · intro p hpf
          rcases List.mem_filter.mp hpf with ⟨hp, hcond⟩
          simp only [decide_eq_true_eq] at hcond
          obtain ⟨hf, hs, ht⟩ := hcond
          simpa using (hall p hp hf hs ht).1
        · intro p hpf
          rcases List.mem_filter.mp hpf with ⟨hp, hcond⟩
          simp only [decide_eq_true_eq] at hcond
          obtain ⟨hf, hs, ht⟩ := hcond
          simpa using List.elem_eq_true_of_mem (hall p hp hf hs ht).2



/-- A list with two distinct members has length at least 2. -/
theorem one_lt_length_of_two_mem {α : Type} {l : List α} {a b : α}
    (ha : a ∈ l) (hb : b ∈ l) (hne : a ≠ b) : 1 < l.length := by
  match l with
  | [] => cases ha
  | [x] =>
      rw [List.mem_singleton] at ha hb
      exact absurd (ha.trans hb.symm) hne
  | x :: y :: t => simp

/-- C6: raise semantics.  For a COMMIT by `pid` (seated as the non-folded
non-spectator player `p`): if the new street total exceeds
`currentCommitment` the commitment becomes that total and `playersWhoActed`
is reset to exactly `[pid]`; a call appends `pid`; and after a raise the
betting round cannot be complete while any other non-folded non-spectator
player with chips remains — every previously-matched such player must act
again. -/
theorem raise_resets_actors (ctx : GameContext) (pid : String) (amount : Int)
    (ctx' : GameContext) (p : Player) (hp : p ∈ ctx.players)
    (hpid : p.id = pid) (hpf : ¬p.isFolded) (hps : ¬p.isSpectator)
    (h : handleCommit ctx (.commit pid amount) = .ok ctx') :
    (getBet ctx.roundBets pid + amount > ctx.currentCommitment →
       ctx'.playersWhoActed = [pid] ∧
       ctx'.currentCommitment = getBet ctx.roundBets pid + amount) ∧
    (getBet ctx.roundBets pid + amount ≤ ctx.currentCommitment →
       ctx'.playersWhoActed = ctx.playersWhoActed ++ [pid] ∧
       ctx'.currentCommitment = ctx.currentCommitment) ∧
    (getBet ctx.roundBets pid + amount > ctx.currentCommitment →
       ∀ q ∈ ctx'.players, ¬q.isFolded → ¬q.isSpectator → 0 < q.tiles →
         q.id ≠ pid → isBettingComplete ctx' = false) := by
  simp only [handleCommit] at h
  cases hfind : ctx.players.find? (fun r => r.id = pid) with
  | none =>
      exfalso
      have hnone := List.find?_eq_none.mp hfind p hp
      simp only [decide_eq_true_eq] at hnone
      exact hnone hpid
  | some player =>
      rw [hfind] at h
      simp only at h
      injection h with h2
      subst h2
      refine ⟨fun hgt => ?_, fun hle => ?_, fun hgt => ?_⟩
      · constructor
        · simp [if_pos hgt]
        · simp only
          exact max_eq_right (le_of_lt hgt)
      · constructor
        · rw [if_neg (not_lt.mpr hle)]
        · simp only
          exact max_eq_left hle
      · intro q hq hqf hqs hqt hqid
        -- the raiser's image is still seated, unfolded, with id `pid`
        have hp' : ({ p with tiles := p.tiles - amount } : Player) ∈
            (ctx.players.map fun r =>
              if r.id = pid then { r with tiles := r.tiles - amount } else r) := by
          have := List.mem_map_of_mem
            (fun r : Player =>
              if r.id = pid then { r with tiles := r.tiles - amount } else r) hp
          simpa [hpid] using this
        simp only [isBettingComplete]
        have hqmem : q ∈ (ctx.players.map fun r =>
            if r.id = pid then { r with tiles := r.tiles - amount } else r) := hq
        have hne : ({ p with tiles := p.tiles - amount } : Player) ≠ q := by
          intro hEq
          apply hqid
          rw [← hEq]
          exact hpid
        have h2mem : 1 < ((ctx.players.map fun r =>
            if r.id = pid then { r with tiles := r.tiles - amount } else r).filter
              fun r => ¬r.isFolded ∧ ¬r.isSpectator).length := by
          refine one_lt_length_of_two_mem
            (List.mem_filter.mpr ⟨hp', by simp [hpf, hps]⟩)
            (List.mem_filter.mpr ⟨hqmem, by simp [hqf, hqs]⟩) hne
        rw [if_neg (Nat.not_le.mpr h2mem)]
        have hacted : ((ctx.players.map fun r =>
            if r.id = pid then { r with tiles := r.tiles - amount } else r).filter
              (fun r => ¬r.isFolded ∧ ¬r.isSpectator ∧ r.tiles > 0)).all
              (fun r => (if getBet ctx.roundBets pid + amount >
                  ctx.currentCommitment then [pid]
                else ctx.playersWhoActed ++ [pid]).contains r.id) = false := by
        -- q is active but not in the reset actor list
          rw [List.all_eq_false]
          refine ⟨q, List.mem_filter.mpr ⟨hqmem, by simp [hqf, hqs, hqt]⟩, ?_⟩
          rw [if_pos hgt]
          simp [hqid]
        rw [hacted]
        simp



/-- `insertDesc` permutes the inserted element into the list. -/
theorem insertDesc_perm (c : EvalCard) (l : List EvalCard) :
    (insertDesc c l).Perm (c :: l) := by
  induction l with
  | nil => simp [insertDesc]
  | cons x xs ih =>
      simp only [insertDesc]
      split
      · exact ((ih.cons x).trans (List.Perm.swap c x xs))
      · exact List.Perm.refl _

/-- `sortDesc` permutes its input. -/
theorem sortDesc_perm (l : List EvalCard) : (sortDesc l).Perm l := by
  induction l with
  | nil => simp [sortDesc]
  | cons c rest ih =>
      simp only [sortDesc]
      exact (insertDesc_perm c (sortDesc rest)).trans (ih.cons c)

/-- Members of `dedupGo seen l` are not in `seen`. -/
theorem dedupGo_mem_not_seen :
    ∀ (l seen : List Int) (x : Int), x ∈ dedupGo seen l → x ∉ seen := by
  intro l
  induction l with
  | nil => intro seen x hx; cases hx
  | cons v rest ih =>
      intro seen x hx
      simp only [dedupGo] at hx
      split at hx
      · exact ih seen x hx
      · rcases List.mem_cons.mp hx with hEq | hmem
        · subst hEq; assumption
        · intro hseen
          exact ih (v :: seen) x hmem (List.mem_cons_of_mem v hseen)

/-- `dedupGo` produces a duplicate-free list. -/
theorem dedupGo_nodup : ∀ (l seen : List Int), (dedupGo seen l).Nodup := by
  intro l
  induction l with
  | nil => intro seen; simp [dedupGo]
  | cons v rest ih =>
      intro seen
      simp only [dedupGo]
      split
      · exact ih seen
      · refine List.nodup_cons.mpr ⟨?_, ih (v :: seen)⟩
        intro hmem
        exact dedupGo_mem_not_seen rest (v :: seen) v hmem
          (List.mem_cons_self v seen)



/-- C10: `evaluateHand` is total on legal deals.  For 2 hole cards plus 0,
3, 4 or 5 community cards with no two cards sharing (suit, rank), the
non-null kicker lookups in the FOUR_OF_A_KIND and TWO_PAIR branches always
find a card (each would require the deal to hold exactly 4 cards), so
evaluation never reaches a missing-value error branch. -/
theorem evaluateHand_total (hole community : List Card)
    (hhole : hole.length = 2)
    (hcomm : community.length = 0 ∨ community.length = 3 ∨
             community.length = 4 ∨ community.length = 5)
    (hnd : (hole ++ community).Nodup) :
    (evaluateHand hole community).isOk = true := by
  simp only [evaluateHand]
  set cards := sortDesc ((hole ++ community).map fun c =>
    { val := getRankValue c.rank, suit := c.suit : EvalCard }) with hcards
  have hlen : cards.length = hole.length + community.length := by
    rw [hcards]
    rw [(sortDesc_perm _).length_eq]
    simp
  split
  · rfl
  · split
    · -- four of a kind: the kicker lookup
      rename_i fourVal tail h4
      split
      · rfl
      · -- find? = none is impossible
        rename_i hfind
        exfalso
        have hmem4 : fourVal ∈ valsByCount cards
            (dedupKeepFirst (cards.map (·.val))) 4 := by
          rw [h4]; exact List.mem_cons_self _ _
        have hcnt4 : countVal cards fourVal = 4 := by
          simpa using (List.mem_filter.mp hmem4).2
        have hall : ∀ c ∈ cards, c.val = fourVal := by
          intro c hc
          simpa using List.find?_eq_none.mp hfind c hc
        have hfull : cards.countP (fun c => c.val = fourVal) = cards.length :=
          List.countP_eq_length.mpr (fun c hc => by simp [hall c hc])
        have : countVal cards fourVal = cards.length := hfull
        omega
    · -- no four of a kind: full house / flush / straight / trips cascade
      split
      · rfl
      · split
        · rfl
        · split
          · rfl
          · split
            · rfl
            · -- two pair: the kicker lookup
              split
              · split
                · rfl
                · rename_i twosv highPair lowPair rest2 h2 xfind hfind
                  exfalso
                  have hnodupU : (dedupKeepFirst (cards.map (·.val))).Nodup :=
                    dedupGo_nodup _ _
                  have hnodup2 : (highPair :: lowPair :: rest2).Nodup := by
                    rw [← h2]
                    exact List.Nodup.filter _ hnodupU
                  have hne : highPair ≠ lowPair := by
                    have := (List.nodup_cons.mp hnodup2).1
                    intro hEq
                    exact this (hEq ▸ List.mem_cons_self _ _)
                  have hmemH : highPair ∈ valsByCount cards
                      (dedupKeepFirst (cards.map (·.val))) 2 := by
                    rw [h2]; exact List.mem_cons_self _ _
                  have hmemL : lowPair ∈ valsByCount cards
                      (dedupKeepFirst (cards.map (·.val))) 2 := by
                    rw [h2]
                    exact List.mem_cons_of_mem _ (List.mem_cons_self _ _)
                  have hcntH : countVal cards highPair = 2 := by
                    simpa using (List.mem_filter.mp hmemH).2
                  have hcntL : countVal cards lowPair = 2 := by
                    simpa using (List.mem_filter.mp hmemL).2
                  have hall : ∀ c ∈ cards,
                      c.val = highPair ∨ c.val = lowPair := by
                    intro c hc
                    have hcc := List.find?_eq_none.mp hfind c hc
                    simp only [decide_eq_true_eq] at hcc
                    rcases not_and_or.mp hcc with h1 | h1
                    · exact Or.inl (not_not.mp h1)
                    · exact Or.inr (not_not.mp h1)
                  have hfull : cards.countP
                      (fun c => (c.val = highPair : Bool) ||
                        (c.val = lowPair : Bool)) = cards.length :=
                    List.countP_eq_length.mpr (fun c hc => by
                      rcases hall c hc with h | h <;> simp [h])
                  have hsplit : cards.countP
                      (fun c => (c.val = highPair : Bool) ||
                        (c.val = lowPair : Bool))
                      = countVal cards highPair + countVal cards lowPair := by
                    refine countP_or_disjoint cards _ _ ?_
                    intro c _ hand2
                    obtain ⟨ha, hb⟩ := hand2
                    simp only [decide_eq_true_eq] at ha hb
                    exact hne (ha ▸ hb ▸ rfl)
                  omega
              · rfl
              · rfl


/-- Witness for C2: the split theorem applied to `splitCtx` — the pot is
zeroed. -/
theorem award_pot_floor_split_witness :
    ((awardPot splitCtx).toOption.getD splitCtx).pot = 0 := by
  have hcw : computeWinners splitCtx
      = .ok ((computeWinners splitCtx).toOption.getD ([], default)) := rfl
  have hap : awardPot splitCtx
      = .ok ((awardPot splitCtx).toOption.getD splitCtx) := rfl
  exact (award_pot_floor_split splitCtx _ _ _ hcw hap).1

/-- Witness for C3: the characterization applied to `allInCtx`, whose two
funded players have matched and acted. -/
theorem betting_complete_characterization_witness :
    isBettingComplete allInCtx = true :=
  (betting_complete_characterization allInCtx).mpr (Or.inr (by decide))

/-- Witness for C6: the raise theorem applied to the S3 scenario — `p2`'s
COMMIT of 40 over commitment 20 resets the actor set to `p2` and lifts the
commitment to 60. -/
theorem raise_resets_actors_witness :
    ((handleCommit raiseCtx (.commit "p2" 40)).toOption.getD
        raiseCtx).playersWhoActed = ["p2"] ∧
    ((handleCommit raiseCtx (.commit "p2" 40)).toOption.getD
        raiseCtx).currentCommitment = 60 := by
  have hEq : handleCommit raiseCtx (.commit "p2" 40)
      = .ok ((handleCommit raiseCtx
          (.commit "p2" 40)).toOption.getD raiseCtx) := rfl
  have hres := raise_resets_actors raiseCtx "p2" 40 _
    { id := "p2", name := "P2", tiles := 980, holeCards := [],
      isFolded := false, isSpectator := false }
    (by decide) rfl (by decide) (by decide) hEq
  exact ⟨(hres.1 (by decide)).1, (hres.1 (by decide)).2⟩

/-- Witness for C10: totality applied to the S2 showdown deal. -/
theorem evaluateHand_total_witness :
    (evaluateHand witnessHole witnessBoard).isOk = true :=
  evaluateHand_total witnessHole witnessBoard (by decide)
    (by decide) (by decide)

end Shufle
